import Mathlib

/-!
Shallow embedding of the GLPI n8n node (src/nodes/Glpi/Glpi.node.ts and the
executor drafts in the same repository), used to check the specification
claims about the parameter classifier, value normalizer, path resolver,
token acquirer and request dispatcher.
-/

/-- JavaScript runtime values as they occur in this node: JSON values plus
the distinguished undefined value. Object fields are kept as an ordered
association list; only the number of keys is ever inspected downstream.
Numeric values are modelled as integers, since no embedded operation
inspects the magnitude of a number produced by JSON parsing. -/
inductive JSValue : Type where
  | undef : JSValue
  | null : JSValue
  | bool (b : Bool) : JSValue
  | num (n : Int) : JSValue
  | str (s : List Char) : JSValue
  | arr (elems : List JSValue) : JSValue
  | obj (fields : List (List Char × JSValue)) : JSValue

/-- The left curly bracket character, written by code point. -/
def lbrace : Char := Char.ofNat 123

/-- The right curly bracket character, written by code point. -/
def rbrace : Char := Char.ofNat 125

/-- The apostrophe character, written by code point. -/
def squote : Char := Char.ofNat 39

/-- Whitespace characters of the JSON grammar. -/
def jsonWs (c : Char) : Bool :=
  c = ' ' || c = '\t' || c = '\n' || c = '\r'

/-- Drop leading JSON whitespace. -/
def skipWs (cs : List Char) : List Char := cs.dropWhile jsonWs

/-- Whitespace code points removed by JavaScript String.prototype.trim
(the ones relevant to this node). -/
def jsTrimWs (c : Char) : Bool :=
  c = ' ' || c = '\t' || c = '\n' || c = '\r' ||
    c = Char.ofNat 11 || c = Char.ofNat 12 || c = Char.ofNat 160

/-- Model of JavaScript String.prototype.trim over character lists. -/
def jsTrim (cs : List Char) : List Char :=
  ((cs.dropWhile jsTrimWs).reverse.dropWhile jsTrimWs).reverse

/-- Hexadecimal digit test for JSON unicode escapes. -/
def isHexDigit (c : Char) : Bool :=
  (('0' ≤ c) && (c ≤ '9')) || (('a' ≤ c) && (c ≤ 'f')) || (('A' ≤ c) && (c ≤ 'F'))

/-- Numeric value of a hexadecimal digit. -/
def hexVal (c : Char) : Nat :=
  if ('0' ≤ c) && (c ≤ '9') then c.toNat - '0'.toNat
  else if ('a' ≤ c) && (c ≤ 'f') then c.toNat - 'a'.toNat + 10
  else if ('A' ≤ c) && (c ≤ 'F') then c.toNat - 'A'.toNat + 10
  else 0

/-- Translation of a simple JSON escape character. -/
def escSimple (c : Char) : Option Char :=
  if c = '"' then some '"'
  else if c = '\\' then some '\\'
  else if c = '/' then some '/'
  else if c = 'b' then some (Char.ofNat 8)
  else if c = 'f' then some (Char.ofNat 12)
  else if c = 'n' then some '\n'
  else if c = 'r' then some '\r'
  else if c = 't' then some '\t'
  else none

/-- Parse the body of a JSON string after the opening quote, returning the
decoded characters and the input remaining after the closing quote. Each
unicode escape is modelled as the single character of its code point. -/
def parseStrChars : Nat → List Char → Option (List Char × List Char)
  | 0, _ => none
  | _ + 1, [] => none
  | fuel + 1, c :: rest =>
    if c = '"' then some ([], rest)
    else if c = '\\' then
      match rest with
      | [] => none
      | e :: rest2 =>
        if e = 'u' then
          match rest2 with
          | a :: b :: c2 :: d :: rest3 =>
            if isHexDigit a && isHexDigit b && isHexDigit c2 && isHexDigit d then
              match parseStrChars fuel rest3 with
              | some (s, r) =>
                some (Char.ofNat
                  (((hexVal a * 16 + hexVal b) * 16 + hexVal c2) * 16 + hexVal d) :: s, r)
              | none => none
            else none
          | _ => none
        else
          match escSimple e with
          | some ch =>
            match parseStrChars fuel rest2 with
            | some (s, r) => some (ch :: s, r)
            | none => none
          | none => none
    else if c.toNat < 32 then none
    else
      match parseStrChars fuel rest with
      | some (s, r) => some (c :: s, r)
      | none => none

/-- Digits to a natural number. -/
def digitsToNat (ds : List Char) : Nat :=
  ds.foldl (fun acc c => acc * 10 + (c.toNat - '0'.toNat)) 0

/-- Parse a JSON number literal. The returned value is its truncated
integer part; no embedded operation inspects the magnitude of a parsed
number, only its presence. -/
def parseNumber (cs : List Char) : Option (Int × List Char) :=
  let signSplit := match cs with
    | '-' :: r => (true, r)
    | _ => (false, cs)
  let neg := signSplit.1
  let cs1 := signSplit.2
  let intDigits := cs1.takeWhile Char.isDigit
  let rest1 := cs1.dropWhile Char.isDigit
  if intDigits.isEmpty then none
  else if intDigits.length > 1 && intDigits.headD '0' = '0' then none
  else
    let fracSplit := match rest1 with
      | '.' :: r2 => (!(r2.takeWhile Char.isDigit).isEmpty, r2.dropWhile Char.isDigit)
      | _ => (true, rest1)
    if !fracSplit.1 then none
    else
      let rest2 := fracSplit.2
      let expSplit := match rest2 with
        | e :: r3 =>
          if e = 'e' || e = 'E' then
            let r4 := match r3 with
              | s :: r5 => if s = '+' || s = '-' then r5 else r3
              | [] => r3
            (!(r4.takeWhile Char.isDigit).isEmpty, r4.dropWhile Char.isDigit)
          else (true, rest2)
        | [] => (true, rest2)
      if !expSplit.1 then none
      else
        let mag : Int := Int.ofNat (digitsToNat intDigits)
        some (if neg then -mag else mag, expSplit.2)

/-- The mutually recursive jobs of the JSON value parser, folded into one
fuel-indexed function so that it evaluates by kernel reduction. -/
inductive ParseJob : Type where
  | value : ParseJob
  | arrayItems : ParseJob
  | objMembers : ParseJob

/-- Model of the JavaScript JSON.parse grammar. The value job parses one
JSON value once leading whitespace has been skipped; the array and object
jobs parse the comma-separated remainder after the opening bracket of a
nonempty collection, returning the collected constructor directly. -/
def parseJ : Nat → ParseJob → List Char → Option (JSValue × List Char)
  | 0, _, _ => none
  | fuel + 1, .value, cs =>
    match cs with
    | [] => none
    | c :: rest =>
      if c = '"' then
        match parseStrChars (rest.length + 1) rest with
        | some (s, r) => some (.str s, r)
        | none => none
      else if c = lbrace then
        match skipWs rest with
        | c2 :: r2 =>
          if c2 = rbrace then some (.obj [], r2)
          else parseJ fuel .objMembers (c2 :: r2)
        | [] => none
      else if c = '[' then
        match skipWs rest with
        | c2 :: r2 =>
          if c2 = ']' then some (.arr [], r2)
          else parseJ fuel .arrayItems (c2 :: r2)
        | [] => none
      else if c = 't' then
        match rest with
        | 'r' :: 'u' :: 'e' :: r => some (.bool true, r)
        | _ => none
      else if c = 'f' then
        match rest with
        | 'a' :: 'l' :: 's' :: 'e' :: r => some (.bool false, r)
        | _ => none
      else if c = 'n' then
        match rest with
        | 'u' :: 'l' :: 'l' :: r => some (.null, r)
        | _ => none
      else
        match parseNumber cs with
        | some (n, r) => some (.num n, r)
        | none => none
  | fuel + 1, .arrayItems, cs =>
    match parseJ fuel .value (skipWs cs) with
    | none => none
    | some (v, rest) =>
      match skipWs rest with
      | c :: r =>
        if c = ',' then
          match parseJ fuel .arrayItems r with
          | some (.arr vs, r2) => some (.arr (v :: vs), r2)
          | _ => none
        else if c = ']' then some (.arr [v], r)
        else none
      | [] => none
  | fuel + 1, .objMembers, cs =>
    match skipWs cs with
    | c :: rest =>
      if c = '"' then
        match parseStrChars (rest.length + 1) rest with
        | none => none
        | some (key, rest1) =>
          match skipWs rest1 with
          | c2 :: rest2 =>
            if c2 = ':' then
              match parseJ fuel .value (skipWs rest2) with
              | none => none
              | some (v, rest3) =>
                match skipWs rest3 with
                | c3 :: r4 =>
                  if c3 = ',' then
                    match parseJ fuel .objMembers r4 with
                    | some (.obj kvs, r5) => some (.obj ((key, v) :: kvs), r5)
                    | _ => none
                  else if c3 = rbrace then some (.obj [(key, v)], r4)
                  else none
                | [] => none
            else none
          | [] => none
      else none
    | [] => none

/-- Model of JavaScript JSON.parse: parse one JSON value and require that
only whitespace remains. -/
def jsonParse (cs : List Char) : Option JSValue :=
  match parseJ (2 * cs.length + 2) .value (skipWs cs) with
  | some (v, rest) => if skipWs rest = [] then some v else none
  | none => none

/-- True for values that the array-emptiness check of isEmptyValue treats
as an empty object: a non-null object-typed value with no own keys, which
covers empty objects and empty arrays. -/
def isEmptyObjectLike : JSValue → Bool
  | .obj kvs => kvs.isEmpty
  | .arr xs => xs.isEmpty
  | _ => false

/-- Termination measure for isEmptyValue: only string values recurse, on
the result of JSON-parsing their trimmed text. -/
def jvMeasure : JSValue → Nat
  | .str s => s.length + 1
  | _ => 0

/-- Fuel-indexed translation of isEmptyValue from src/nodes/Glpi/Glpi.node.ts
(the canonical executor): undefined, null and the empty string are empty;
zero deliberately is not; a string is trimmed, the two-character
empty-object and empty-array texts are empty, and any other string is
JSON-parsed with the result re-examined when parsing succeeds; an array is
empty when it has no elements or only empty-object-like elements; an object
is empty when it has no keys. -/
def isEmptyValueF : Nat → JSValue → Bool
  | _, .undef => true
  | _, .null => true
  | _, .bool _ => false
  | _, .num _ => false
  | fuel, .str s =>
    if s = [] then true
    else
      let t := jsTrim s
      if t = [lbrace, rbrace] || t = ['[', ']'] then true
      else
        match jsonParse t with
        | some v =>
          match fuel with
          | 0 => false
          | f + 1 => isEmptyValueF f v
        | none => false
  | _, .arr xs => xs.isEmpty || xs.all isEmptyObjectLike
  | _, .obj kvs => kvs.isEmpty

/-- The value normalizer of the canonical executor, run with the fuel bound
that is proved sufficient below. -/
def isEmptyValue (v : JSValue) : Bool := isEmptyValueF (jvMeasure v + 1) v

/-- JavaScript String() conversion restricted to the nullish special cases
used when an array is joined: null and undefined elements render as the
empty string. -/
def isNullish : JSValue → Bool
  | .null => true
  | .undef => true
  | _ => false

/-- Rendering of a value that is neither a string, a number, a boolean,
null, undefined nor an array: in this model only objects remain. -/
def jsObjToString : List Char := "[object Object]".data

/-- JavaScript Array.prototype.toString: elements joined by commas, with
null and undefined elements rendered as empty strings. -/
def jsArrToString (xs : List JSValue) : List Char :=
  match xs with
  | [] => []
  | v :: rest =>
    (if isNullish v then []
     else match v with
       | .arr ys => jsArrToString ys
       | .bool true => "true".data
       | .bool false => "false".data
       | .num n => (toString n).data
       | .str s => s
       | .obj _ => jsObjToString
       | _ => []) ++
    (if rest.isEmpty then [] else ',' :: jsArrToString rest)
termination_by sizeOf xs
decreasing_by
  all_goals simp_wf
  all_goals omega

/-- Model of JavaScript String() coercion, as applied by the node to header
values and path-parameter values. The top level is not recursive, so every
non-array case evaluates by kernel reduction. -/
def jsValueToString : JSValue → List Char
  | .undef => "undefined".data
  | .null => "null".data
  | .bool true => "true".data
  | .bool false => "false".data
  | .num n => (toString n).data
  | .str s => s
  | .arr xs => jsArrToString xs
  | .obj _ => jsObjToString

/-- Characters that encodeURIComponent leaves unescaped. -/
def isUnreservedURI (c : Char) : Bool :=
  c.isAlpha || c.isDigit || c = '-' || c = '_' || c = '.' || c = '!' ||
    c = '~' || c = '*' || c = squote || c = '(' || c = ')'

/-- Upper-case hexadecimal digit character for a value below sixteen. -/
def hexDigitChar (n : Nat) : Char :=
  if n < 10 then Char.ofNat ('0'.toNat + n) else Char.ofNat ('A'.toNat + (n - 10))

/-- Percent-encoding of one byte. -/
def percentByte (b : Nat) : List Char :=
  ['%', hexDigitChar (b / 16), hexDigitChar (b % 16)]

/-- The UTF-8 bytes of a code point. -/
def utf8Bytes (n : Nat) : List Nat :=
  if n < 128 then [n]
  else if n < 2048 then [192 + n / 64, 128 + n % 64]
  else if n < 65536 then [224 + n / 4096, 128 + (n / 64) % 64, 128 + n % 64]
  else [240 + n / 262144, 128 + (n / 4096) % 64, 128 + (n / 64) % 64, 128 + n % 64]

/-- Model of JavaScript encodeURIComponent: unreserved characters are kept,
every other character is replaced by the percent-encoding of its UTF-8
bytes. -/
def encodeURIComponent (s : List Char) : List Char :=
  (s.map (fun c =>
    if isUnreservedURI c then [c] else ((utf8Bytes c.toNat).map percentByte).flatten)).flatten

def notRb (c : Char) : Bool := c ≠ rbrace

/-- One leftmost match attempt of the path-parameter pattern at an opening
brace: at least one non-closing-brace character followed by a closing
brace. Returns the token name and the remainder after the closing brace. -/
def splitToken (rest : List Char) : Option (List Char × List Char) :=
  let name := rest.takeWhile notRb
  if name.isEmpty then none
  else
    match rest.dropWhile notRb with
    | _ :: after => some (name, after)
    | [] => none

/-- Fuel-indexed model of the global-regex replace over a path template:
each brace-delimited token is replaced by the encoded looked-up value when
the lookup succeeds and is left literally in place when it fails; positions
where the pattern cannot match are copied unchanged. -/
def substTokensF (lookup : List Char → Option (List Char)) : Nat → List Char → List Char
  | 0, cs => cs
  | fuel + 1, cs =>
    match cs with
    | [] => []
    | c :: rest =>
      if c = lbrace then
        match splitToken rest with
        | some (name, after) =>
          (match lookup name with
           | some v => encodeURIComponent v
           | none => lbrace :: (name ++ [rbrace])) ++ substTokensF lookup fuel after
        | none => lbrace :: substTokensF lookup fuel rest
      else c :: substTokensF lookup fuel rest

/-- Path-parameter substitution with sufficient fuel. -/
def substTokens (lookup : List Char → Option (List Char)) (cs : List Char) : List Char :=
  substTokensF lookup (cs.length + 1) cs

/-- Fuel-indexed scan for the names of all brace-delimited tokens, with the
same leftmost non-overlapping semantics as the substitution pass. -/
def findTokensF : Nat → List Char → List (List Char)
  | 0, _ => []
  | fuel + 1, cs =>
    match cs with
    | [] => []
    | c :: rest =>
      if c = lbrace then
        match splitToken rest with
        | some (name, after) => name :: findTokensF fuel after
        | none => findTokensF fuel rest
      else findTokensF fuel rest

/-- The names of all brace-delimited tokens of a string. -/
def findTokens (cs : List Char) : List (List Char) :=
  findTokensF (cs.length + 1) cs

/-- The full matched token texts, brace characters included, as produced by
the unresolved-parameter scan of the executor. -/
def findMatches (cs : List Char) : List (List Char) :=
  (findTokens cs).map (fun n => lbrace :: (n ++ [rbrace]))

/-- Error-message prefix of the unresolved path parameter failure. -/
def missingParamsPrefix : List Char := "Missing required path parameter(s): ".data

/-- The path-resolution stage of the executor: substitute every token, then
fail when any token text remains, naming all remaining tokens in the error
message. -/
def resolvePath (lookup : List Char → Option (List Char)) (path0 : List Char) :
    Except (List Char) (List Char) :=
  let path := substTokens lookup path0
  let unresolved := findMatches path
  if unresolved.isEmpty then .ok path
  else .error (missingParamsPrefix ++ List.intercalate ", ".data unresolved)

/-- A property generated by the OpenAPI builder, restricted to the fields
the executors inspect: its name, its routing send type and optional send
property, and its declared operation list. operations is none when
displayOptions.show.operation is missing or is not an array. -/
structure NodeProp where
  name : List Char
  sendType : Option (List Char)
  sendProperty : Option (List Char)
  operations : Option (List (List Char))
deriving DecidableEq

/-- The three routable send types. -/
def routableSendTypes : List (List Char) := ["body".data, "query".data, "header".data]

/-- Whether a property carries routing.send metadata of a routable type. -/
def isRoutable (p : NodeProp) : Bool :=
  match p.sendType with
  | some t => routableSendTypes.contains t
  | none => false

/-- Append a property to the bucket of a key in an insertion-ordered map,
creating the bucket at the end when the key is new: the behaviour of the
JavaScript Map in the pre-indexing loop. -/
def mapInsert (m : List (List Char × List NodeProp)) (k : List Char) (p : NodeProp) :
    List (List Char × List NodeProp) :=
  match m with
  | [] => [(k, [p])]
  | (k2, ps) :: rest =>
    if k2 = k then (k2, ps ++ [p]) :: rest else (k2, ps) :: mapInsert rest k p

/-- Bucket lookup in the insertion-ordered map. -/
def mapLookup (m : List (List Char × List NodeProp)) (k : List Char) :
    Option (List NodeProp) :=
  match m with
  | [] => none
  | (k2, ps) :: rest => if k2 = k then some ps else mapLookup rest k

/-- Translation of the operationPropertiesMap pre-indexing loop of the
canonical executor: every routable property whose declared operation list
is an array is appended to the bucket of each of its operations; a routable
property without such an array is skipped. -/
def buildOpMap (props : List NodeProp) : List (List Char × List NodeProp) :=
  props.foldl (fun m p =>
    if isRoutable p then
      match p.operations with
      | some ops => ops.foldl (fun m2 op => mapInsert m2 op p) m
      | none => m
    else m) []

/-- The classified subset the canonical executor uses for an operation:
the pre-indexed bucket, or the empty list when the operation has none. -/
def classifyMap (props : List NodeProp) (op : List Char) : List NodeProp :=
  (mapLookup (buildOpMap props) op).getD []

/-- The classified subset of the scan-based executor draft (the second
variant in src/nodes/Glpi/Glpi.node.ts): every routable property is kept
unless its declared operation array exists and excludes the operation. -/
def classifyScan (props : List NodeProp) (op : List Char) : List NodeProp :=
  props.filter (fun p =>
    isRoutable p &&
      match p.operations with
      | some ops => ops.contains op
      | none => true)

/-- JavaScript object-field assignment over an ordered association list:
an existing key keeps its position and receives the new value, a new key is
appended at the end. -/
def objSet (l : List (List Char × JSValue)) (k : List Char) (v : JSValue) :
    List (List Char × JSValue) :=
  match l with
  | [] => [(k, v)]
  | (k2, v2) :: rest => if k2 = k then (k2, v) :: rest else (k2, v2) :: objSet rest k v

/-- Like objSet, for string-valued header maps. -/
def hdrSet (l : List (List Char × List Char)) (k : List Char) (v : List Char) :
    List (List Char × List Char) :=
  match l with
  | [] => [(k, v)]
  | (k2, v2) :: rest => if k2 = k then (k2, v) :: rest else (k2, v2) :: hdrSet rest k v

/-- The body, query and extra-header collections built by the per-item
parameter loop. -/
structure Collected where
  body : List (List Char × JSValue)
  qs : List (List Char × JSValue)
  headers : List (List Char × List Char)

/-- Translation of the per-item parameter loop of the canonical executor,
over an already classified property list: a parameter whose lookup fails
softly is skipped, a parameter whose value the normalizer deems empty is
skipped, and every other parameter is placed into the body, query or header
collection under its send property, defaulting to its name. -/
def collectParams (classified : List NodeProp)
    (params : List Char → Option JSValue) : Collected :=
  classified.foldl (fun acc p =>
    match params p.name with
    | none => acc
    | some v =>
      if isEmptyValue v then acc
      else
        let key := p.sendProperty.getD p.name
        match p.sendType with
        | some t =>
          if t = "body".data then { acc with body := objSet acc.body key v }
          else if t = "query".data then { acc with qs := objSet acc.qs key v }
          else { acc with headers := hdrSet acc.headers key (jsValueToString v) }
        | none => acc) ⟨[], [], []⟩

/-- The credential record read from the glpiOAuth2Api credential. -/
structure Credentials where
  glpiUrl : List Char
  username : List Char
  password : List Char
  scope : List Char
  clientId : List Char
  clientSecret : List Char
  ignoreSSLIssues : Bool

/-- Strip trailing slash characters from the configured base URL. -/
def stripTrailingSlashes (cs : List Char) : List Char :=
  (cs.reverse.dropWhile (fun c => c = '/')).reverse

/-- Translation of the token-request body construction of the canonical
executor: a form-entry record with the password-grant fields, scope
defaulting to api, and the client credentials included only when truthy
(the empty string is falsy in JavaScript). -/
def tokenBodyEntries (c : Credentials) : List (List Char × List Char) :=
  [("grant_type".data, "password".data),
   ("username".data, c.username),
   ("password".data, c.password),
   ("scope".data, if c.scope.isEmpty then "api".data else c.scope)] ++
  (if c.clientId.isEmpty then [] else [("client_id".data, c.clientId)]) ++
  (if c.clientSecret.isEmpty then [] else [("client_secret".data, c.clientSecret)])

/-- JavaScript String.prototype.split on a single-character separator. -/
def splitOnChar (sep : Char) : List Char → List (List Char)
  | [] => [[]]
  | c :: rest =>
    if c = sep then [] :: splitOnChar sep rest
    else
      match splitOnChar sep rest with
      | [] => [[c]]
      | s :: ss => (c :: s) :: ss

/-- The HTTP methods the executor accepts. -/
def validMethods : List (List Char) :=
  ["GET".data, "POST".data, "PUT".data, "PATCH".data, "DELETE".data]

/-- The outgoing request assembled for one item. -/
structure RequestDescriptor where
  method : List Char
  url : List Char
  headers : List (List Char × List Char)
  body : Option (List (List Char × JSValue))
  qs : Option (List (List Char × JSValue))

/-- Error-message prefix of the invalid-method failure. -/
def invalidMethodPrefix : List Char :=
  "Invalid HTTP method parsed from operation: \"".data

/-- Translation of the per-item request construction of the canonical
executor, up to the point where the HTTP call would be issued: split the
operation identifier on spaces into method and path template, reject
methods outside the allowed set, resolve the path template against the
item parameters coerced to strings, fail when tokens remain unresolved,
classify and collect the routable parameters, and assemble the request
with its headers, body and query collections. -/
def buildRequest (creds : Credentials) (props : List NodeProp) (accessToken : List Char)
    (op : List Char) (params : List Char → Option JSValue) :
    Except (List Char) RequestDescriptor :=
  let parts := splitOnChar ' ' op
  let method := parts.headD []
  let pathPart := (parts[1]?).getD []
  if !(validMethods.contains method) then
    .error (invalidMethodPrefix ++ method ++ ['"'])
  else
    let path0 := if pathPart.headD ' ' = '/' then pathPart else '/' :: pathPart
    match resolvePath (fun name => (params name).map jsValueToString) path0 with
    | .error e => .error e
    | .ok path =>
      let col := collectParams (classifyMap props op) params
      let baseUrl := stripTrailingSlashes creds.glpiUrl
      let headers0 :=
        [("Accept".data, "application/json".data),
         ("Authorization".data, "Bearer ".data ++ accessToken)]
      let headers1 := col.headers.foldl (fun h kv => hdrSet h kv.1 kv.2) headers0
      let isPayload := method = "POST".data || method = "PUT".data || method = "PATCH".data
      let headers2 :=
        if isPayload then hdrSet headers1 "Content-Type".data "application/json".data
        else headers1
      .ok {
        method := method
        url := baseUrl ++ "/api.php".data ++ path
        headers := headers2
        body := if isPayload && !col.body.isEmpty then some col.body else none
        qs := if col.qs.isEmpty then none else some col.qs }

/-- One input item of a batch: the operation identifier resolved for it,
its parameter lookup (none models the soft parameter-not-available
failure), and the response the transport would return for its request. -/
structure Item where
  operation : List Char
  params : List Char → Option JSValue
  response : Except (List Char) JSValue

/-- Response normalization of the executor: a sequence body yields one
output record per element, any other body yields a single record. -/
def normalizeResponse : JSValue → List JSValue
  | .arr xs => xs
  | v => [v]

/-- The output record captured for a failed item when continue-on-failure
is enabled. -/
def errRecord (msg : List Char) : JSValue := .obj [("error".data, .str msg)]

/-- Process one item: build its request and, only when that succeeds,
consult the transport response and normalize it. -/
def runItem (creds : Credentials) (props : List NodeProp) (accessToken : List Char)
    (it : Item) : Except (List Char) (List JSValue) :=
  match buildRequest creds props accessToken it.operation it.params with
  | .error e => .error e
  | .ok _ =>
    match it.response with
    | .error e => .error e
    | .ok body => .ok (normalizeResponse body)

/-- The records one item contributes to the batch output when
continue-on-failure is enabled. -/
def itemRecords (creds : Credentials) (props : List NodeProp) (accessToken : List Char)
    (it : Item) : List JSValue :=
  match runItem creds props accessToken it with
  | .ok outs => outs
  | .error e => [errRecord e]

/-- The item-processing loop of the executor: with continue-on-failure a
failed item is captured as a single error record and iteration proceeds,
otherwise the first failure aborts the whole batch. -/
def runItems (creds : Credentials) (props : List NodeProp) (accessToken : List Char)
    (continueOnFail : Bool) : List Item → Except (List Char) (List JSValue)
  | [] => .ok []
  | it :: rest =>
    match runItem creds props accessToken it with
    | .ok outs =>
      match runItems creds props accessToken continueOnFail rest with
      | .ok more => .ok (outs ++ more)
      | .error e => .error e
    | .error e =>
      if continueOnFail then
        match runItems creds props accessToken continueOnFail rest with
        | .ok more => .ok (errRecord e :: more)
        | .error e2 => .error e2
      else .error e

/-- JavaScript truthiness of the access_token field of the token-endpoint
response: a missing field and the empty string are both falsy. -/
def accessTokenOf (tokenField : Option (List Char)) : Option (List Char) :=
  match tokenField with
  | some t => if t.isEmpty then none else some t
  | none => none

/-- The hard authentication failure raised before the item loop when the
token-endpoint response carries no usable access_token. -/
def noAccessTokenMsg : List Char :=
  "OAuth2 token request succeeded but returned no access_token. Check GLPI credentials.".data

/-- Translation of the canonical execute routine around the item loop: the
token is examined once before the loop, a missing access_token aborts the
whole execution regardless of the continue-on-failure flag, and otherwise
every item is processed with the shared token. -/
def runExecute (creds : Credentials) (props : List NodeProp)
    (tokenField : Option (List Char)) (continueOnFail : Bool) (items : List Item) :
    Except (List Char) (List JSValue) :=
  match accessTokenOf tokenField with
  | none => .error noAccessTokenMsg
  | some tok => runItems creds props tok continueOnFail items

theorem isEmptyValueF_undef (fuel : Nat) : isEmptyValueF fuel .undef = true := by
  cases fuel <;> rfl

theorem isEmptyValueF_null (fuel : Nat) : isEmptyValueF fuel .null = true := by
  cases fuel <;> rfl

theorem isEmptyValueF_bool (fuel : Nat) (b : Bool) : isEmptyValueF fuel (.bool b) = false := by
  cases fuel <;> rfl

theorem isEmptyValueF_num (fuel : Nat) (n : Int) : isEmptyValueF fuel (.num n) = false := by
  cases fuel <;> rfl

theorem isEmptyValueF_arr (fuel : Nat) (xs : List JSValue) :
    isEmptyValueF fuel (.arr xs) = (xs.isEmpty || xs.all isEmptyObjectLike) := by
  cases fuel <;> rfl

theorem isEmptyValueF_obj (fuel : Nat) (kvs : List (List Char × JSValue)) :
    isEmptyValueF fuel (.obj kvs) = kvs.isEmpty := by
  cases fuel <;> rfl

theorem isEmptyValueF_str_succ (f : Nat) (s : List Char) :
    isEmptyValueF (f + 1) (.str s) =
      (if s = [] then true
       else if jsTrim s = [lbrace, rbrace] || jsTrim s = ['[', ']'] then true
       else
         match jsonParse (jsTrim s) with
         | some v => isEmptyValueF f v
         | none => false) := by
  simp only [isEmptyValueF]

theorem parseStrChars_length : ∀ fuel cs u rest,
    parseStrChars fuel cs = some (u, rest) → u.length + 1 + rest.length ≤ cs.length := by
  intro fuel
  induction fuel with
  | zero => intro cs u rest h; simp [parseStrChars] at h
  | succ f ih =>
    intro cs u rest h
    cases cs with
    | nil => simp [parseStrChars] at h
    | cons c cs2 =>
      simp only [parseStrChars] at h
      split at h
      · simp at h
        obtain ⟨h1, h2⟩ := h
        subst h1; subst h2
        simp
        omega
      · split at h
        · split at h
          · simp at h
          · split at h
            · split at h
              · split at h
                · split at h
                  · simp at h
                    obtain ⟨h1, h2⟩ := h
                    subst h1; subst h2
                    have := ih _ _ _ (by assumption)
                    simp at *
                    omega
                  · simp at h
                · simp at h
              · simp at h
            · split at h
              · split at h
                · simp at h
                  obtain ⟨h1, h2⟩ := h
                  subst h1; subst h2
                  have := ih _ _ _ (by assumption)
                  simp at *
                  omega
                · simp at h
              · simp at h
        · split at h
          · simp at h
          · split at h
            · simp at h
              obtain ⟨h1, h2⟩ := h
              subst h1; subst h2
              have := ih _ _ _ (by assumption)
              simp at *
              omega
            · simp at h

theorem skipWs_length_le (cs : List Char) : (skipWs cs).length ≤ cs.length :=
  (List.dropWhile_sublist _).length_le

theorem jsTrim_length_le (cs : List Char) : (jsTrim cs).length ≤ cs.length := by
  unfold jsTrim
  calc ((cs.dropWhile jsTrimWs).reverse.dropWhile jsTrimWs).reverse.length
      = ((cs.dropWhile jsTrimWs).reverse.dropWhile jsTrimWs).length := by simp
    _ ≤ (cs.dropWhile jsTrimWs).reverse.length := (List.dropWhile_sublist _).length_le
    _ = (cs.dropWhile jsTrimWs).length := by simp
    _ ≤ cs.length := (List.dropWhile_sublist _).length_le

theorem parseJ_arrayItems_shape (fuel : Nat) (cs : List Char) (v : JSValue) (rest : List Char)
    (h : parseJ fuel .arrayItems cs = some (v, rest)) : ∃ vs, v = JSValue.arr vs := by
  cases fuel with
  | zero => simp [parseJ] at h
  | succ f =>
    simp only [parseJ] at h
    repeat' split at h
    all_goals try simp at h
    all_goals exact ⟨_, h.1.symm⟩

theorem parseJ_objMembers_shape (fuel : Nat) (cs : List Char) (v : JSValue) (rest : List Char)
    (h : parseJ fuel .objMembers cs = some (v, rest)) : ∃ kvs, v = JSValue.obj kvs := by
  cases fuel with
  | zero => simp [parseJ] at h
  | succ f =>
    simp only [parseJ] at h
    repeat' split at h
    all_goals try simp at h
    all_goals exact ⟨_, h.1.symm⟩

theorem parseJ_value_str_length (fuel : Nat) (cs : List Char) (u rest : List Char)
    (h : parseJ fuel .value cs = some (.str u, rest)) :
    u.length + 2 + rest.length ≤ cs.length := by
  cases fuel with
  | zero => simp [parseJ] at h
  | succ f =>
    cases cs with
    | nil => simp [parseJ] at h
    | cons c cs2 =>
      simp only [parseJ] at h
      split at h
      · split at h
        · simp at h
          obtain ⟨h1, h2⟩ := h
          subst h1; subst h2
          have := parseStrChars_length _ _ _ _ (by assumption)
          simp
          omega
        · simp at h
      · split at h
        · split at h
          · split at h
            · simp at h
            · obtain ⟨kvs, hk⟩ := parseJ_objMembers_shape _ _ _ _ h
              simp at hk
          · simp at h
        · split at h
          · split at h
            · split at h
              · simp at h
              · obtain ⟨vs, hk⟩ := parseJ_arrayItems_shape _ _ _ _ h
                simp at hk
            · simp at h
          · split at h
            · split at h
              · simp at h
              · simp at h
            · split at h
              · split at h
                · simp at h
                · simp at h
              · split at h
                · split at h
                  · simp at h
                  · simp at h
                · split at h
                  · simp at h
                  · simp at h

theorem jsonParse_str_length (cs u : List Char) (h : jsonParse cs = some (.str u)) :
    u.length + 2 ≤ cs.length := by
  unfold jsonParse at h
  split at h
  · split at h
    · simp at h
      subst h
      have h2 := parseJ_value_str_length _ _ _ _ (by assumption)
      have h3 := skipWs_length_le cs
      omega
    · simp at h
  · simp at h

theorem jvMeasure_parse_lt (s : List Char) (v : JSValue) (hs : s ≠ [])
    (h : jsonParse (jsTrim s) = some v) : jvMeasure v < s.length := by
  have hlen : (jsTrim s).length ≤ s.length := jsTrim_length_le s
  have hpos : 0 < s.length := List.length_pos.mpr hs
  cases v
  case str u =>
    have h2 := jsonParse_str_length _ _ h
    simp only [jvMeasure]
    omega
  all_goals simp only [jvMeasure]
  all_goals omega

theorem isEmptyValueF_stable : ∀ fuel1 fuel2 v, jvMeasure v < fuel1 → jvMeasure v < fuel2 →
    isEmptyValueF fuel1 v = isEmptyValueF fuel2 v := by
  intro fuel1
  induction fuel1 with
  | zero => intro fuel2 v h1 h2; omega
  | succ f1 ih =>
    intro fuel2 v h1 h2
    cases v with
    | undef => rw [isEmptyValueF_undef, isEmptyValueF_undef]
    | null => rw [isEmptyValueF_null, isEmptyValueF_null]
    | bool b => rw [isEmptyValueF_bool, isEmptyValueF_bool]
    | num n => rw [isEmptyValueF_num, isEmptyValueF_num]
    | arr xs => rw [isEmptyValueF_arr, isEmptyValueF_arr]
    | obj kvs => rw [isEmptyValueF_obj, isEmptyValueF_obj]
    | str s =>
      simp only [jvMeasure] at h1 h2
      obtain ⟨f2, rfl⟩ : ∃ f2, fuel2 = f2 + 1 := by
        cases fuel2
        · omega
        · exact ⟨_, rfl⟩
      rw [isEmptyValueF_str_succ, isEmptyValueF_str_succ]
      by_cases hs : s = []
      · simp [hs]
      · rw [if_neg hs, if_neg hs]
        split
        · rfl
        · split
          · rename_i v2 hv2
            exact ih f2 v2 (by have := jvMeasure_parse_lt s v2 hs hv2; omega)
              (by have := jvMeasure_parse_lt s v2 hs hv2; omega)
          · rfl

theorem isEmptyValue_eq_isEmptyValueF (v : JSValue) (fuel : Nat) (h : jvMeasure v < fuel) :
    isEmptyValueF fuel v = isEmptyValue v :=
  isEmptyValueF_stable fuel (jvMeasure v + 1) v h (Nat.lt_succ_self _)

theorem isEmptyValue_str_unfold (s : List Char) (hs : s ≠ []) :
    isEmptyValue (.str s) =
      (if jsTrim s = [lbrace, rbrace] || jsTrim s = ['[', ']'] then true
       else
         match jsonParse (jsTrim s) with
         | some v => isEmptyValue v
         | none => false) := by
  show isEmptyValueF (jvMeasure (.str s) + 1) (.str s) = _
  simp only [jvMeasure]
  rw [isEmptyValueF_str_succ, if_neg hs]
  split
  · rfl
  · split
    · rename_i v hv
      exact isEmptyValue_eq_isEmptyValueF v (s.length + 1)
        (by have := jvMeasure_parse_lt s v hs hv; omega)
    · rfl

/-- C2: the numeric value zero is not absent: isEmptyValue of zero is
false, and a classified query parameter whose value is zero is placed into
the outgoing request (here as the query collection entry and in the
assembled request descriptor) rather than omitted. -/
theorem claim_C2_zero_not_absent :
    isEmptyValue (.num 0) = false ∧
    collectParams
      (classifyMap
        [{ name := "start".data, sendType := some "query".data, sendProperty := none,
           operations := some ["GET /x".data] }] "GET /x".data)
      (fun n => if n = "start".data then some (.num 0) else none) =
      ⟨[], [("start".data, JSValue.num 0)], []⟩ ∧
    buildRequest
      { glpiUrl := "https://g/".data, username := "u".data, password := "p".data,
        scope := [], clientId := [], clientSecret := [], ignoreSSLIssues := false }
      [{ name := "start".data, sendType := some "query".data, sendProperty := none,
         operations := some ["GET /x".data] }]
      "tok".data "GET /x".data
      (fun n => if n = "start".data then some (.num 0) else none) =
      .ok {
        method := "GET".data
        url := "https://g/api.php/x".data
        headers := [("Accept".data, "application/json".data),
                    ("Authorization".data, "Bearer tok".data)]
        body := none
        qs := some [("start".data, JSValue.num 0)] } :=
  ⟨rfl, rfl, rfl⟩

/-- C9: the value normalizer on strings first handles the empty string,
then trims; the two-character empty-object and empty-array texts are
absent; any other string is JSON-parsed and, on success, the normalizer is
applied to the parsed value, while on parse failure the string is present;
in particular the empty string and the text of an array containing one
empty object are absent, while a one-element array and a one-key object
are present. -/
theorem claim_C9_string_normalizer :
    (∀ s : List Char, s ≠ [] →
      isEmptyValue (.str s) =
        (if jsTrim s = [lbrace, rbrace] || jsTrim s = ['[', ']'] then true
         else
           match jsonParse (jsTrim s) with
           | some v => isEmptyValue v
           | none => false)) ∧
    isEmptyValue (.str []) = true ∧
    isEmptyValue (.str [lbrace, rbrace]) = true ∧
    isEmptyValue (.str ['[', ']']) = true ∧
    isEmptyValue (.str ['[', lbrace, rbrace, ']']) = true ∧
    isEmptyValue (.arr [.num 1]) = false ∧
    isEmptyValue (.obj [("a".data, .num 1)]) = false :=
  ⟨isEmptyValue_str_unfold, rfl, rfl, rfl, rfl, rfl, rfl⟩

theorem claim_C9_string_normalizer_witness :
    (("no json".data : List Char) ≠ []) ∧
    isEmptyValue (.str "no json".data) =
      (if jsTrim "no json".data = [lbrace, rbrace] || jsTrim "no json".data = ['[', ']']
       then true
       else
         match jsonParse (jsTrim "no json".data) with
         | some v => isEmptyValue v
         | none => false) :=
  ⟨by decide, claim_C9_string_normalizer.1 "no json".data (by decide)⟩

/-- C10: the value normalizer terminates on every input: JSON-parsing a
string that yields another string strictly shortens it, so the fuel-indexed
approximations of isEmptyValue stabilize at the computable bound jvMeasure,
and isEmptyValue is the common value of all sufficiently fuelled
approximations. -/
theorem claim_C10_normalizer_total :
    (∀ cs u : List Char, jsonParse cs = some (.str u) → u.length < cs.length) ∧
    (∀ (v : JSValue) (fuel : Nat), jvMeasure v < fuel →
      isEmptyValueF fuel v = isEmptyValue v) :=
  ⟨fun cs u h => by have := jsonParse_str_length cs u h; omega,
   fun v fuel h => isEmptyValue_eq_isEmptyValueF v fuel h⟩

theorem claim_C10_normalizer_total_witness :
    jsonParse ['"', 'a', 'b', '"'] = some (.str "ab".data) ∧
    ("ab".data : List Char).length < (['"', 'a', 'b', '"'] : List Char).length ∧
    jvMeasure (JSValue.str "97".data) < 9 ∧
    isEmptyValueF 9 (.str "97".data) = isEmptyValue (.str "97".data) :=
  ⟨rfl, claim_C10_normalizer_total.1 ['"', 'a', 'b', '"'] "ab".data rfl,
   by decide, claim_C10_normalizer_total.2 (.str "97".data) 9 (by decide)⟩

/-- C1: evaluation at the failing input: a routable descriptor with no
declared operation array is excluded from every operation's classified
subset by the pre-indexed classifier of the canonical executor, while the
scan-based executor draft includes it for every operation; a descriptor
restricted to one operation is excluded for a different operation and
included for its own by both classifiers. -/
theorem claim_C1_unrestricted_descriptor_dropped :
    (∀ op : List Char,
      classifyMap
        [{ name := "limit".data, sendType := some "query".data, sendProperty := none,
           operations := none }] op = [] ∧
      classifyScan
        [{ name := "limit".data, sendType := some "query".data, sendProperty := none,
           operations := none }] op =
        [{ name := "limit".data, sendType := some "query".data, sendProperty := none,
           operations := none }]) ∧
    classifyMap
      [{ name := "name".data, sendType := some "body".data, sendProperty := none,
         operations := some ["POST /a".data] }] "POST /a".data =
      [{ name := "name".data, sendType := some "body".data, sendProperty := none,
         operations := some ["POST /a".data] }] ∧
    classifyMap
      [{ name := "name".data, sendType := some "body".data, sendProperty := none,
         operations := some ["POST /a".data] }] "POST /b".data = [] ∧
    classifyScan
      [{ name := "name".data, sendType := some "body".data, sendProperty := none,
         operations := some ["POST /a".data] }] "POST /a".data =
      [{ name := "name".data, sendType := some "body".data, sendProperty := none,
         operations := some ["POST /a".data] }] ∧
    classifyScan
      [{ name := "name".data, sendType := some "body".data, sendProperty := none,
         operations := some ["POST /a".data] }] "POST /b".data = [] :=
  ⟨fun _ => ⟨rfl, rfl⟩, rfl, rfl, rfl, rfl⟩

/-- C5: the token-request body omits the client_id and client_secret keys
entirely when the credential record's client id and client secret are
empty, and contains both keys when both are non-empty. -/
theorem claim_C5_client_credentials (c : Credentials) :
    (c.clientId = [] → c.clientSecret = [] →
      ¬ ("client_id".data ∈ (tokenBodyEntries c).map Prod.fst) ∧
      ¬ ("client_secret".data ∈ (tokenBodyEntries c).map Prod.fst)) ∧
    (c.clientId ≠ [] → c.clientSecret ≠ [] →
      "client_id".data ∈ (tokenBodyEntries c).map Prod.fst ∧
      "client_secret".data ∈ (tokenBodyEntries c).map Prod.fst) := by
  constructor
  · intro h1 h2
    constructor <;> simp [tokenBodyEntries, h1, h2]
  · intro h1 h2
    constructor <;> simp [tokenBodyEntries, h1, h2]

theorem claim_C5_client_credentials_witness :
    (("cid".data : List Char) ≠ []) ∧ (("csec".data : List Char) ≠ []) ∧
    ("client_id".data ∈
      (tokenBodyEntries
        { glpiUrl := "https://g".data, username := "u".data, password := "p".data,
          scope := [], clientId := "cid".data, clientSecret := "csec".data,
          ignoreSSLIssues := false }).map Prod.fst ∧
     "client_secret".data ∈
      (tokenBodyEntries
        { glpiUrl := "https://g".data, username := "u".data, password := "p".data,
          scope := [], clientId := "cid".data, clientSecret := "csec".data,
          ignoreSSLIssues := false }).map Prod.fst) ∧
    (¬ ("client_id".data ∈
      (tokenBodyEntries
        { glpiUrl := "https://g".data, username := "u".data, password := "p".data,
          scope := [], clientId := [], clientSecret := [],
          ignoreSSLIssues := false }).map Prod.fst) ∧
     ¬ ("client_secret".data ∈
      (tokenBodyEntries
        { glpiUrl := "https://g".data, username := "u".data, password := "p".data,
          scope := [], clientId := [], clientSecret := [],
          ignoreSSLIssues := false }).map Prod.fst)) :=
  ⟨by decide, by decide,
   (claim_C5_client_credentials _).2 (by decide) (by decide),
   (claim_C5_client_credentials _).1 rfl rfl⟩

/-- C6: when the token-endpoint response carries no access_token (the
field is missing or empty, both falsy), the whole execution fails with the
authentication error message, for every credential record, property list,
continue-on-failure setting and item batch: the failure is never captured
as a per-item error record and no item is processed. -/
theorem claim_C6_missing_token_hard_failure :
    ∀ (creds : Credentials) (props : List NodeProp) (cont : Bool) (items : List Item),
      runExecute creds props none cont items = .error noAccessTokenMsg ∧
      runExecute creds props (some []) cont items = .error noAccessTokenMsg :=
  fun _ _ _ _ => ⟨rfl, rfl⟩

/-- C8: a sequence response body yields one output record per element and
any other body yields exactly one record wrapping it; through the
dispatcher, an item whose request builds successfully and whose response
is a two-element sequence contributes exactly those two records. -/
theorem claim_C8_response_normalization :
    (∀ xs : List JSValue, normalizeResponse (.arr xs) = xs) ∧
    (∀ v : JSValue, (∀ xs, v ≠ .arr xs) → normalizeResponse v = [v]) ∧
    (∀ (creds : Credentials) (props : List NodeProp) (tok op : List Char)
       (params : List Char → Option JSValue) (xs : List JSValue)
       (req : RequestDescriptor),
       buildRequest creds props tok op params = .ok req →
       runItem creds props tok ⟨op, params, .ok (.arr xs)⟩ = .ok xs) := by
  refine ⟨fun xs => rfl, ?_, ?_⟩
  · intro v h
    cases v with
    | arr xs => exact absurd rfl (h xs)
    | undef => rfl
    | null => rfl
    | bool b => rfl
    | num n => rfl
    | str s => rfl
    | obj kvs => rfl
  · intro creds props tok op params xs req h
    simp [runItem, h, normalizeResponse]

theorem claim_C8_response_normalization_witness :
    ((∀ xs, JSValue.obj [] ≠ JSValue.arr xs) ∧ normalizeResponse (.obj []) = [.obj []]) ∧
    (buildRequest
      { glpiUrl := "https://g/".data, username := "u".data, password := "p".data,
        scope := [], clientId := [], clientSecret := [], ignoreSSLIssues := false }
      [] "tok".data "GET /Ticket".data (fun _ => none) =
      .ok {
        method := "GET".data
        url := "https://g/api.php/Ticket".data
        headers := [("Accept".data, "application/json".data),
                    ("Authorization".data, "Bearer tok".data)]
        body := none
        qs := none } ∧
     runItem
      { glpiUrl := "https://g/".data, username := "u".data, password := "p".data,
        scope := [], clientId := [], clientSecret := [], ignoreSSLIssues := false }
      [] "tok".data
      { operation := "GET /Ticket".data, params := fun _ => none,
        response := .ok (.arr [.obj [("a".data, .num 1)], .obj [("b".data, .num 2)]]) } =
      .ok [.obj [("a".data, .num 1)], .obj [("b".data, .num 2)]]) :=
  ⟨⟨fun _ h => JSValue.noConfusion h,
    claim_C8_response_normalization.2.1 (.obj []) (fun _ h => JSValue.noConfusion h)⟩,
   rfl,
   claim_C8_response_normalization.2.2 _ [] "tok".data "GET /Ticket".data (fun _ => none)
     [.obj [("a".data, .num 1)], .obj [("b".data, .num 2)]] _ rfl⟩

theorem splitOnChar_head (sep : Char) : ∀ cs : List Char,
    (splitOnChar sep cs).headD [] = cs.takeWhile (fun c => c ≠ sep) := by
  intro cs
  induction cs with
  | nil => rfl
  | cons c rest ih =>
    simp only [splitOnChar]
    by_cases h : c = sep
    · simp [h]
    · simp only [if_neg h]
      cases hsp : splitOnChar sep rest with
      | nil =>
        rw [hsp] at ih
        simp at ih
        simp [List.takeWhile_cons, h]
        exact ih
      | cons s ss =>
        rw [hsp] at ih
        simp at ih
        simp [List.takeWhile_cons, h, ← ih]

/-- C4: the text before the first space of the operation identifier is the
HTTP method the executor extracts, and when that method is outside the
allowed set the item fails with the invalid-method operation error, for
every transport response: no network call depends on or follows from such
an item. -/
theorem claim_C4_method_validation :
    (∀ op : List Char,
      (splitOnChar ' ' op).headD [] = op.takeWhile (fun c => c ≠ ' ')) ∧
    (∀ (creds : Credentials) (props : List NodeProp) (tok op : List Char)
       (params : List Char → Option JSValue) (r : Except (List Char) JSValue),
       validMethods.contains (op.takeWhile (fun c => c ≠ ' ')) = false →
       runItem creds props tok ⟨op, params, r⟩ =
         .error (invalidMethodPrefix ++ op.takeWhile (fun c => c ≠ ' ') ++ ['"'])) := by
  refine ⟨splitOnChar_head ' ', ?_⟩
  intro creds props tok op params r h
  simp only [runItem, buildRequest, splitOnChar_head ' ' op, h]
  rfl

theorem claim_C4_method_validation_witness :
    validMethods.contains ("FETCH /x".data.takeWhile (fun c => c ≠ ' ')) = false ∧
    runItem
      { glpiUrl := "https://g/".data, username := "u".data, password := "p".data,
        scope := [], clientId := [], clientSecret := [], ignoreSSLIssues := false }
      [] "tok".data
      { operation := "FETCH /x".data, params := fun _ => none, response := .ok (.obj []) } =
      .error (invalidMethodPrefix ++ "FETCH /x".data.takeWhile (fun c => c ≠ ' ') ++ ['"']) :=
  ⟨by decide,
   claim_C4_method_validation.2 _ [] "tok".data "FETCH /x".data (fun _ => none)
     (.ok (.obj [])) (by decide)⟩

theorem runItems_continue (creds : Credentials) (props : List NodeProp) (tok : List Char) :
    ∀ items : List Item,
      runItems creds props tok true items =
        .ok ((items.map (itemRecords creds props tok)).flatten) := by
  intro items
  induction items with
  | nil => rfl
  | cons it rest ih =>
    simp only [runItems]
    cases h : runItem creds props tok it with
    | ok outs =>
      rw [ih]
      simp [itemRecords, h]
    | error e =>
      rw [ih]
      simp [itemRecords, h]

theorem runItems_abort (creds : Credentials) (props : List NodeProp) (tok : List Char) :
    ∀ (pre : List Item) (it : Item) (post : List Item) (e : List Char),
      (∀ x ∈ pre, ∃ outs, runItem creds props tok x = .ok outs) →
      runItem creds props tok it = .error e →
      runItems creds props tok false (pre ++ it :: post) = .error e := by
  intro pre
  induction pre with
  | nil =>
    intro it post e hpre hit
    simp only [List.nil_append, runItems, hit]
    rfl
  | cons x rest ih =>
    intro it post e hpre hit
    obtain ⟨outs, hx⟩ := hpre x (by simp)
    have hrec := ih it post e (fun y hy => hpre y (by simp [hy])) hit
    simp only [List.cons_append, runItems, List.append_eq, hx, hrec]

/-- C7: with continue-on-failure enabled the batch never aborts and each
item contributes its normal records or a single error record in place;
with it disabled the first failing item aborts the batch, the error
propagates, and the remaining items do not appear; concretely, a batch of
three items whose second remote call fails yields exactly three records
with the error record second. -/
theorem claim_C7_failure_policy :
    (∀ (creds : Credentials) (props : List NodeProp) (tok : List Char)
       (items : List Item),
       runItems creds props tok true items =
         .ok ((items.map (itemRecords creds props tok)).flatten)) ∧
    (∀ (creds : Credentials) (props : List NodeProp) (tok : List Char)
       (pre : List Item) (it : Item) (post : List Item) (e : List Char),
       (∀ x ∈ pre, ∃ outs, runItem creds props tok x = .ok outs) →
       runItem creds props tok it = .error e →
       runItems creds props tok false (pre ++ it :: post) = .error e) ∧
    runItems
      { glpiUrl := "https://g/".data, username := "u".data, password := "p".data,
        scope := [], clientId := [], clientSecret := [], ignoreSSLIssues := false }
      [] "tok".data true
      [{ operation := "GET /A".data, params := fun _ => none,
         response := .ok (.obj [("r1".data, .num 1)]) },
       { operation := "GET /B".data, params := fun _ => none,
         response := .error "remote call failed".data },
       { operation := "GET /C".data, params := fun _ => none,
         response := .ok (.obj [("r3".data, .num 3)]) }] =
      .ok [.obj [("r1".data, .num 1)],
           errRecord "remote call failed".data,
           .obj [("r3".data, .num 3)]] :=
  ⟨runItems_continue, runItems_abort, rfl⟩

theorem claim_C7_failure_policy_witness :
    (∀ x ∈ [({ operation := "GET /A".data, params := fun _ => none,
               response := .ok (.obj [("r1".data, JSValue.num 1)]) } : Item)],
       ∃ outs, runItem
         { glpiUrl := "https://g/".data, username := "u".data, password := "p".data,
           scope := [], clientId := [], clientSecret := [], ignoreSSLIssues := false }
         [] "tok".data x = .ok outs) ∧
    runItem
      { glpiUrl := "https://g/".data, username := "u".data, password := "p".data,
        scope := [], clientId := [], clientSecret := [], ignoreSSLIssues := false }
      [] "tok".data
      { operation := "GET /B".data, params := fun _ => none,
        response := .error "remote call failed".data } =
      .error "remote call failed".data ∧
    runItems
      { glpiUrl := "https://g/".data, username := "u".data, password := "p".data,
        scope := [], clientId := [], clientSecret := [], ignoreSSLIssues := false }
      [] "tok".data false
      ([{ operation := "GET /A".data, params := fun _ => none,
          response := .ok (.obj [("r1".data, .num 1)]) }] ++
        { operation := "GET /B".data, params := fun _ => none,
          response := .error "remote call failed".data } ::
        [{ operation := "GET /C".data, params := fun _ => none,
           response := .ok (.obj [("r3".data, .num 3)]) }]) =
      .error "remote call failed".data := by
  refine ⟨?_, rfl, ?_⟩
  · intro x hx
    simp at hx
    subst hx
    exact ⟨[.obj [("r1".data, JSValue.num 1)]], rfl⟩
  · exact claim_C7_failure_policy.2.1 _ [] "tok".data _ _ _ _
      (by
        intro x hx
        simp at hx
        subst hx
        exact ⟨[.obj [("r1".data, JSValue.num 1)]], rfl⟩)
      rfl

theorem char_toNat_lt (c : Char) : c.toNat < 1114112 := by
  have h := c.valid
  unfold UInt32.isValidChar at h
  unfold Nat.isValidChar at h
  rcases h with h | ⟨h1, h2⟩ <;> simp [Char.toNat] <;> omega

theorem utf8Bytes_lt (n : Nat) (hn : n < 1114112) : ∀ b ∈ utf8Bytes n, b < 256 := by
  intro b hb
  unfold utf8Bytes at hb
  split at hb
  · simp at hb; omega
  · split at hb
    · simp at hb
      rcases hb with h | h <;> omega
    · split at hb
      · simp at hb
        rcases hb with h | h | h <;> omega
      · simp at hb
        rcases hb with h | h | h | h <;> omega

theorem hexDigitChar_ne_brace : ∀ n < 16, hexDigitChar n ≠ lbrace ∧ hexDigitChar n ≠ rbrace := by
  decide

theorem percentByte_ne_brace (b : Nat) (hb : b < 256) :
    ∀ c ∈ percentByte b, c ≠ lbrace ∧ c ≠ rbrace := by
  intro c hc
  unfold percentByte at hc
  simp at hc
  rcases hc with h | h | h
  · subst h; decide
  · subst h; exact hexDigitChar_ne_brace _ (by omega)
  · subst h; exact hexDigitChar_ne_brace _ (by omega)

theorem encodeURIComponent_no_brace (v : List Char) :
    ∀ c ∈ encodeURIComponent v, c ≠ lbrace ∧ c ≠ rbrace := by
  intro c hc
  unfold encodeURIComponent at hc
  simp only [List.mem_flatten, List.mem_map] at hc
  obtain ⟨l, ⟨c0, hc0, hl⟩, hcl⟩ := hc
  subst hl
  split at hcl
  · simp at hcl
    subst hcl
    rename_i hres
    constructor <;> intro hEq <;> subst hEq <;> revert hres <;> decide
  · simp only [List.mem_flatten, List.mem_map] at hcl
    obtain ⟨pb, ⟨b, hb, hpb⟩, hcpb⟩ := hcl
    subst hpb
    exact percentByte_ne_brace b (utf8Bytes_lt _ (char_toNat_lt c0) b hb) c hcpb

theorem notRb_iff (c : Char) : notRb c = true ↔ c ≠ rbrace := by
  simp [notRb]

theorem notRb_rbrace : notRb rbrace = false := by
  simp [notRb]

theorem splitToken_some (rest name after : List Char)
    (h : splitToken rest = some (name, after)) :
    rest = name ++ rbrace :: after ∧ name ≠ [] ∧ ∀ c ∈ name, c ≠ rbrace := by
  simp only [splitToken] at h
  cases hempty : (rest.takeWhile notRb).isEmpty with
  | true => simp [hempty] at h
  | false =>
    simp only [hempty, Bool.false_eq_true, if_false] at h
    cases hdrop : rest.dropWhile notRb with
    | nil => simp [hdrop] at h
    | cons c after0 =>
      simp only [hdrop] at h
      simp at h
      obtain ⟨h1, h2⟩ := h
      have hc : c = rbrace := by
        have hh := List.head?_dropWhile_not notRb rest
        rw [hdrop] at hh
        simp only [List.head?_cons] at hh
        simp [notRb] at hh
        exact hh
      refine ⟨?_, ?_, ?_⟩
      · have hsplit := List.takeWhile_append_dropWhile notRb rest
        rw [h1, hdrop, hc, h2] at hsplit
        exact hsplit.symm
      · intro hnil
        rw [← h1] at hnil
        simp [hnil] at hempty
      · intro c2 hc2
        rw [← h1] at hc2
        exact (notRb_iff c2).mp (List.mem_takeWhile_imp hc2)

theorem splitToken_none (rest : List Char) (h : splitToken rest = none) :
    rest = [] ∨ (∃ r2, rest = rbrace :: r2) ∨ (∀ c ∈ rest, c ≠ rbrace) := by
  simp only [splitToken] at h
  cases hempty : (rest.takeWhile notRb).isEmpty with
  | true =>
    cases hrest : rest with
    | nil => exact Or.inl rfl
    | cons c r2 =>
      rw [hrest, List.takeWhile_cons] at hempty
      by_cases hc : c = rbrace
      · exact Or.inr (Or.inl ⟨r2, by rw [hc]⟩)
      · rw [if_pos (by simp [notRb, hc])] at hempty
        simp at hempty
  | false =>
    simp only [hempty, Bool.false_eq_true, if_false] at h
    cases hdrop : rest.dropWhile notRb with
    | nil =>
      refine Or.inr (Or.inr ?_)
      intro c hc
      exact (notRb_iff c).mp (List.dropWhile_eq_nil_iff.mp hdrop c hc)
    | cons c after0 => simp [hdrop] at h

theorem takeWhile_all_append (p : Char → Bool) (x : Char) (hx : p x = false) :
    ∀ m b : List Char, (∀ c ∈ m, p c = true) →
      (m ++ x :: b).takeWhile p = m ∧ (m ++ x :: b).dropWhile p = x :: b := by
  intro m
  induction m with
  | nil => intro b _; simp [List.takeWhile_cons, List.dropWhile_cons, hx]
  | cons c rest ih =>
    intro b hm
    have hc : p c = true := hm c (by simp)
    have hr := ih b (fun y hy => hm y (by simp [hy]))
    simp [List.takeWhile_cons, List.dropWhile_cons, hc, hr.1, hr.2]

theorem splitToken_of_shape (m b : List Char) (hm : m ≠ [])
    (hmem : ∀ c ∈ m, c ≠ rbrace) : splitToken (m ++ rbrace :: b) = some (m, b) := by
  have h := takeWhile_all_append notRb rbrace notRb_rbrace m b
    (fun c hc => (notRb_iff c).mpr (hmem c hc))
  simp only [splitToken, h.1, h.2]
  simp [hm]

theorem splitToken_after_lt (rest name after : List Char)
    (h : splitToken rest = some (name, after)) : after.length + 2 ≤ rest.length := by
  obtain ⟨heq, hne, -⟩ := splitToken_some rest name after h
  have hp : 1 ≤ name.length := List.length_pos.mpr hne
  rw [heq]
  simp
  omega

theorem substTokensF_stable (lookup : List Char → Option (List Char)) :
    ∀ fuel1 fuel2 cs, cs.length < fuel1 → cs.length < fuel2 →
      substTokensF lookup fuel1 cs = substTokensF lookup fuel2 cs := by
  intro fuel1
  induction fuel1 with
  | zero => intro fuel2 cs h1 h2; omega
  | succ f1 ih =>
    intro fuel2 cs h1 h2
    obtain ⟨f2, rfl⟩ : ∃ f2, fuel2 = f2 + 1 := by
      cases fuel2
      · omega
      · exact ⟨_, rfl⟩
    cases cs with
    | nil => rfl
    | cons c rest =>
      simp only [List.length_cons] at h1 h2
      simp only [substTokensF]
      by_cases hc : c = lbrace
      · simp only [if_pos hc]
        cases hsp : splitToken rest with
        | some p =>
          obtain ⟨name, after⟩ := p
          have hlt := splitToken_after_lt rest name after hsp
          simp only [hsp]
          rw [ih f2 after (by omega) (by omega)]
        | none =>
          simp only [hsp]
          rw [ih f2 rest (by omega) (by omega)]
      · simp only [if_neg hc]
        rw [ih f2 rest (by omega) (by omega)]

theorem findTokensF_stable :
    ∀ fuel1 fuel2 cs, cs.length < fuel1 → cs.length < fuel2 →
      findTokensF fuel1 cs = findTokensF fuel2 cs := by
  intro fuel1
  induction fuel1 with
  | zero => intro fuel2 cs h1 h2; omega
  | succ f1 ih =>
    intro fuel2 cs h1 h2
    obtain ⟨f2, rfl⟩ : ∃ f2, fuel2 = f2 + 1 := by
      cases fuel2
      · omega
      · exact ⟨_, rfl⟩
    cases cs with
    | nil => rfl
    | cons c rest =>
      simp only [List.length_cons] at h1 h2
      simp only [findTokensF]
      by_cases hc : c = lbrace
      · simp only [if_pos hc]
        cases hsp : splitToken rest with
        | some p =>
          obtain ⟨name, after⟩ := p
          have hlt := splitToken_after_lt rest name after hsp
          simp only [hsp]
          rw [ih f2 after (by omega) (by omega)]
        | none =>
          simp only [hsp]
          rw [ih f2 rest (by omega) (by omega)]
      · simp only [if_neg hc]
        rw [ih f2 rest (by omega) (by omega)]

theorem findTokensF_eq_findTokens (fuel : Nat) (cs : List Char) (h : cs.length < fuel) :
    findTokensF fuel cs = findTokens cs :=
  findTokensF_stable fuel (cs.length + 1) cs h (Nat.lt_succ_self _)

theorem substTokensF_eq_substTokens (lookup : List Char → Option (List Char))
    (fuel : Nat) (cs : List Char) (h : cs.length < fuel) :
    substTokensF lookup fuel cs = substTokens lookup cs :=
  substTokensF_stable lookup fuel (cs.length + 1) cs h (Nat.lt_succ_self _)

theorem findTokensF_cons (fuel : Nat) (c : Char) (rest : List Char) :
    findTokensF (fuel + 1) (c :: rest) =
      (if c = lbrace then
        match splitToken rest with
        | some (name, after) => name :: findTokensF fuel after
        | none => findTokensF fuel rest
      else findTokensF fuel rest) := rfl

theorem substTokensF_cons (lookup : List Char → Option (List Char)) (fuel : Nat)
    (c : Char) (rest : List Char) :
    substTokensF lookup (fuel + 1) (c :: rest) =
      (if c = lbrace then
        match splitToken rest with
        | some (name, after) =>
          (match lookup name with
           | some v => encodeURIComponent v
           | none => lbrace :: (name ++ [rbrace])) ++ substTokensF lookup fuel after
        | none => lbrace :: substTokensF lookup fuel rest
      else c :: substTokensF lookup fuel rest) := rfl

theorem findTokens_cons_ne (c : Char) (rest : List Char) (hc : c ≠ lbrace) :
    findTokens (c :: rest) = findTokens rest := by
  simp only [findTokens, List.length_cons, findTokensF_cons, if_neg hc]

theorem findTokens_cons_lbrace_some (rest name after : List Char)
    (hsp : splitToken rest = some (name, after)) :
    findTokens (lbrace :: rest) = name :: findTokens after := by
  have hlt := splitToken_after_lt rest name after hsp
  simp only [findTokens, List.length_cons, findTokensF_cons, if_pos rfl, hsp]
  rw [findTokensF_stable (rest.length + 1) (after.length + 1) after (by omega)
    (Nat.lt_succ_self _)]
  simp

theorem findTokens_cons_lbrace_none (rest : List Char)
    (hsp : splitToken rest = none) :
    findTokens (lbrace :: rest) = findTokens rest := by
  simp only [findTokens, List.length_cons, findTokensF_cons, if_pos rfl, hsp]
  simp

theorem substTokens_cons_ne (lookup : List Char → Option (List Char)) (c : Char)
    (rest : List Char) (hc : c ≠ lbrace) :
    substTokens lookup (c :: rest) = c :: substTokens lookup rest := by
  simp only [substTokens, List.length_cons, substTokensF_cons, if_neg hc]

theorem substTokens_cons_lbrace_some (lookup : List Char → Option (List Char))
    (rest name after : List Char) (hsp : splitToken rest = some (name, after)) :
    substTokens lookup (lbrace :: rest) =
      (match lookup name with
       | some v => encodeURIComponent v
       | none => lbrace :: (name ++ [rbrace])) ++ substTokens lookup after := by
  have hlt := splitToken_after_lt rest name after hsp
  simp only [substTokens, List.length_cons, substTokensF_cons, if_pos rfl, hsp]
  rw [substTokensF_stable lookup (rest.length + 1) (after.length + 1) after (by omega)
    (Nat.lt_succ_self _)]
  simp

theorem substTokens_cons_lbrace_none (lookup : List Char → Option (List Char))
    (rest : List Char) (hsp : splitToken rest = none) :
    substTokens lookup (lbrace :: rest) = lbrace :: substTokens lookup rest := by
  simp only [substTokens, List.length_cons, substTokensF_cons, if_pos rfl, hsp]
  simp

theorem splitToken_rbrace_mem (rest name after : List Char)
    (h : splitToken rest = some (name, after)) : rbrace ∈ rest := by
  rw [(splitToken_some rest name after h).1]
  simp

theorem findTokens_nil : findTokens [] = [] := rfl

theorem substTokens_nil (lookup : List Char → Option (List Char)) :
    substTokens lookup [] = [] := rfl

theorem substTokens_no_rbrace (lookup : List Char → Option (List Char)) :
    ∀ cs : List Char, (∀ c ∈ cs, c ≠ rbrace) → substTokens lookup cs = cs := by
  intro cs
  induction cs with
  | nil => intro _; rfl
  | cons c rest ih =>
    intro h
    have hrest : ∀ y ∈ rest, y ≠ rbrace := fun y hy => h y (List.mem_cons_of_mem c hy)
    by_cases hc : c = lbrace
    · subst hc
      cases hsp : splitToken rest with
      | some p =>
        obtain ⟨name, after⟩ := p
        exact absurd (h rbrace (by simp [splitToken_rbrace_mem rest name after hsp]))
          (by simp)
      | none =>
        rw [substTokens_cons_lbrace_none lookup rest hsp, ih hrest]
    · rw [substTokens_cons_ne lookup c rest hc, ih hrest]

theorem findTokens_no_rbrace :
    ∀ cs : List Char, (∀ c ∈ cs, c ≠ rbrace) → findTokens cs = [] := by
  intro cs
  induction cs with
  | nil => intro _; rfl
  | cons c rest ih =>
    intro h
    have hrest : ∀ y ∈ rest, y ≠ rbrace := fun y hy => h y (List.mem_cons_of_mem c hy)
    by_cases hc : c = lbrace
    · subst hc
      cases hsp : splitToken rest with
      | some p =>
        obtain ⟨name, after⟩ := p
        exact absurd (h rbrace (by simp [splitToken_rbrace_mem rest name after hsp]))
          (by simp)
      | none =>
        rw [findTokens_cons_lbrace_none rest hsp, ih hrest]
    · rw [findTokens_cons_ne c rest hc, ih hrest]

theorem findTokens_append_no_lbrace :
    ∀ xs ys : List Char, (∀ c ∈ xs, c ≠ lbrace) →
      findTokens (xs ++ ys) = findTokens ys := by
  intro xs
  induction xs with
  | nil => intro ys _; rfl
  | cons x rest ih =>
    intro ys h
    rw [List.cons_append,
      findTokens_cons_ne x (rest ++ ys) (h x (by simp)),
      ih ys (fun y hy => h y (List.mem_cons_of_mem x hy))]

theorem splitToken_rbrace_head (x : List Char) : splitToken (rbrace :: x) = none := by
  simp [splitToken, List.takeWhile_cons, notRb_rbrace]

theorem substTokens_complete_bound (lookup : List Char → Option (List Char)) :
    ∀ N : Nat, ∀ cs : List Char, cs.length ≤ N →
      (∀ n ∈ findTokens cs, (lookup n).isSome) →
      findTokens (substTokens lookup cs) = [] := by
  intro N
  induction N with
  | zero =>
    intro cs hlen _
    have : cs = [] := List.length_eq_zero.mp (Nat.le_zero.mp hlen)
    subst this
    rfl
  | succ N ih =>
    intro cs hlen hyp
    cases cs with
    | nil => rfl
    | cons c rest =>
      simp only [List.length_cons] at hlen
      by_cases hc : c = lbrace
      · subst hc
        cases hsp : splitToken rest with
        | some p =>
          obtain ⟨name, after⟩ := p
          have hfind := findTokens_cons_lbrace_some rest name after hsp
          have hname : (lookup name).isSome := hyp name (by rw [hfind]; simp)
          obtain ⟨v, hv⟩ := Option.isSome_iff_exists.mp hname
          rw [substTokens_cons_lbrace_some lookup rest name after hsp, hv]
          rw [findTokens_append_no_lbrace _ _
            (fun c2 hc2 => (encodeURIComponent_no_brace v c2 hc2).1)]
          have hlt := splitToken_after_lt rest name after hsp
          exact ih after (by omega)
            (fun n hn => hyp n (by rw [hfind]; exact List.mem_cons_of_mem name hn))
        | none =>
          have hfind := findTokens_cons_lbrace_none rest hsp
          have hS : findTokens (substTokens lookup rest) = [] :=
            ih rest (by omega) (fun n hn => hyp n (by rw [hfind]; exact hn))
          rw [substTokens_cons_lbrace_none lookup rest hsp]
          have hspS : splitToken (substTokens lookup rest) = none := by
            rcases splitToken_none rest hsp with h0 | ⟨r2, hr⟩ | hnb
            · subst h0
              rfl
            · subst hr
              rw [substTokens_cons_ne lookup rbrace r2 (by decide)]
              exact splitToken_rbrace_head _
            · rw [substTokens_no_rbrace lookup rest hnb]
              exact hsp
          rw [findTokens_cons_lbrace_none _ hspS]
          exact hS
      · rw [substTokens_cons_ne lookup c rest hc, findTokens_cons_ne c _ hc]
        exact ih rest (by omega)
          (fun n hn => hyp n (by rw [findTokens_cons_ne c rest hc]; exact hn))

theorem substTokens_complete (lookup : List Char → Option (List Char)) (cs : List Char)
    (hyp : ∀ n ∈ findTokens cs, (lookup n).isSome) :
    findTokens (substTokens lookup cs) = [] :=
  substTokens_complete_bound lookup cs.length cs (Nat.le_refl _) hyp

theorem findTokens_name_facts_bound :
    ∀ N : Nat, ∀ cs name : List Char, cs.length ≤ N → name ∈ findTokens cs →
      name ≠ [] ∧ ∀ c ∈ name, c ≠ rbrace := by
  intro N
  induction N with
  | zero =>
    intro cs name hlen hmem
    have : cs = [] := List.length_eq_zero.mp (Nat.le_zero.mp hlen)
    subst this
    simp [findTokens_nil] at hmem
  | succ N ih =>
    intro cs name hlen hmem
    cases cs with
    | nil => simp [findTokens_nil] at hmem
    | cons c rest =>
      simp only [List.length_cons] at hlen
      by_cases hc : c = lbrace
      · subst hc
        cases hsp : splitToken rest with
        | some p =>
          obtain ⟨n0, after⟩ := p
          rw [findTokens_cons_lbrace_some rest n0 after hsp] at hmem
          rcases List.mem_cons.mp hmem with heq | htail
          · subst heq
            obtain ⟨-, hne, hmem2⟩ := splitToken_some rest name after hsp
            exact ⟨hne, hmem2⟩
          · have hlt := splitToken_after_lt rest n0 after hsp
            exact ih after name (by omega) htail
        | none =>
          rw [findTokens_cons_lbrace_none rest hsp] at hmem
          exact ih rest name (by omega) hmem
      · rw [findTokens_cons_ne c rest hc] at hmem
        exact ih rest name (by omega) hmem

theorem findTokens_name_facts (cs name : List Char) (hmem : name ∈ findTokens cs) :
    name ≠ [] ∧ ∀ c ∈ name, c ≠ rbrace :=
  findTokens_name_facts_bound cs.length cs name (Nat.le_refl _) hmem

theorem substTokens_left_token_bound (lookup : List Char → Option (List Char)) :
    ∀ N : Nat, ∀ cs name : List Char, cs.length ≤ N → name ∈ findTokens cs →
      lookup name = none →
      ∃ a b, substTokens lookup cs = a ++ lbrace :: (name ++ rbrace :: b) := by
  intro N
  induction N with
  | zero =>
    intro cs name hlen hmem _
    have : cs = [] := List.length_eq_zero.mp (Nat.le_zero.mp hlen)
    subst this
    simp [findTokens_nil] at hmem
  | succ N ih =>
    intro cs name hlen hmem hnone
    cases cs with
    | nil => simp [findTokens_nil] at hmem
    | cons c rest =>
      simp only [List.length_cons] at hlen
      by_cases hc : c = lbrace
      · subst hc
        cases hsp : splitToken rest with
        | some p =>
          obtain ⟨n0, after⟩ := p
          rw [findTokens_cons_lbrace_some rest n0 after hsp] at hmem
          rw [substTokens_cons_lbrace_some lookup rest n0 after hsp]
          rcases List.mem_cons.mp hmem with heq | htail
          · subst heq
            rw [hnone]
            refine ⟨[], substTokens lookup after, ?_⟩
            simp
          · have hlt := splitToken_after_lt rest n0 after hsp
            obtain ⟨a, b, hab⟩ := ih after name (by omega) htail hnone
            rw [hab]
            exact ⟨(match lookup n0 with
                    | some v => encodeURIComponent v
                    | none => lbrace :: (n0 ++ [rbrace])) ++ a, b, by simp⟩
        | none =>
          rw [findTokens_cons_lbrace_none rest hsp] at hmem
          rw [substTokens_cons_lbrace_none lookup rest hsp]
          obtain ⟨a, b, hab⟩ := ih rest name (by omega) hmem hnone
          rw [hab]
          exact ⟨lbrace :: a, b, rfl⟩
      · rw [findTokens_cons_ne c rest hc] at hmem
        rw [substTokens_cons_ne lookup c rest hc]
        obtain ⟨a, b, hab⟩ := ih rest name (by omega) hmem hnone
        rw [hab]
        exact ⟨c :: a, b, rfl⟩

theorem substTokens_left_token (lookup : List Char → Option (List Char))
    (cs name : List Char) (hmem : name ∈ findTokens cs) (hnone : lookup name = none) :
    ∃ a b, substTokens lookup cs = a ++ lbrace :: (name ++ rbrace :: b) :=
  substTokens_left_token_bound lookup cs.length cs name (Nat.le_refl _) hmem hnone

theorem token_sub_find_ne_bound :
    ∀ N : Nat, ∀ cs a m b : List Char, cs.length ≤ N →
      cs = a ++ lbrace :: (m ++ rbrace :: b) → m ≠ [] → (∀ c ∈ m, c ≠ rbrace) →
      findTokens cs ≠ [] := by
  intro N
  induction N with
  | zero =>
    intro cs a m b hlen hdec _ _
    subst hdec
    simp at hlen
  | succ N ih =>
    intro cs a m b hlen hdec hm hmem
    cases cs with
    | nil => simp at hdec
    | cons c rest =>
      simp only [List.length_cons] at hlen
      by_cases hc : c = lbrace
      · subst hc
        cases hsp : splitToken rest with
        | some p =>
          obtain ⟨n0, after⟩ := p
          rw [findTokens_cons_lbrace_some rest n0 after hsp]
          simp
        | none =>
          cases a with
          | nil =>
            simp only [List.nil_append, List.cons.injEq] at hdec
            exact absurd (hdec.2 ▸ splitToken_of_shape m b hm hmem)
              (by rw [hsp]; simp)
          | cons a0 a2 =>
            simp only [List.cons_append, List.cons.injEq] at hdec
            rw [findTokens_cons_lbrace_none rest hsp]
            exact ih rest a2 m b (by omega) hdec.2 hm hmem
      · cases a with
        | nil =>
          simp only [List.nil_append, List.cons.injEq] at hdec
          exact absurd hdec.1 hc
        | cons a0 a2 =>
          simp only [List.cons_append, List.cons.injEq] at hdec
          rw [findTokens_cons_ne c rest hc]
          exact ih rest a2 m b (by omega) hdec.2 hm hmem

theorem token_sub_find_ne (cs a m b : List Char)
    (hdec : cs = a ++ lbrace :: (m ++ rbrace :: b)) (hm : m ≠ [])
    (hmem : ∀ c ∈ m, c ≠ rbrace) : findTokens cs ≠ [] :=
  token_sub_find_ne_bound cs.length cs a m b (Nat.le_refl _) hdec hm hmem

theorem intercalate_cons_cons (sep x y : List Char) (t : List (List Char)) :
    List.intercalate sep (x :: y :: t) = x ++ sep ++ List.intercalate sep (y :: t) := by
  simp [List.intercalate, List.intersperse_cons_cons]

theorem mem_intercalate_infix (sep : List Char) :
    ∀ (l : List (List Char)) (x : List Char), x ∈ l →
      ∃ s t, List.intercalate sep l = s ++ x ++ t := by
  intro l
  induction l with
  | nil => intro x hx; simp at hx
  | cons h0 tl ih =>
    intro x hx
    cases tl with
    | nil =>
      simp at hx
      subst hx
      exact ⟨[], [], by simp [List.intercalate]⟩
    | cons h1 t2 =>
      rcases List.mem_cons.mp hx with heq | htail
      · subst heq
        exact ⟨[], sep ++ List.intercalate sep (h1 :: t2), by
          rw [intercalate_cons_cons]
          simp⟩
      · obtain ⟨s, t, hst⟩ := ih x htail
        refine ⟨h0 ++ sep ++ s, t, ?_⟩
        rw [intercalate_cons_cons, hst]
        simp

/-- C3: when the per-item lookup supplies a value for every token of the
path template, resolution succeeds and the resolved path contains no
token text at all; when any token's lookup fails, resolution fails with
the missing-required-path-parameter error whose message names every
remaining token; and in the dispatcher a path-resolution failure makes the
item fail with that error for every transport response, so no request is
issued for the item. -/
theorem claim_C3_path_resolution :
    (∀ (lookup : List Char → Option (List Char)) (path0 : List Char),
      (∀ n ∈ findTokens path0, (lookup n).isSome) →
      ∃ path, resolvePath lookup path0 = .ok path ∧ findTokens path = []) ∧
    (∀ (lookup : List Char → Option (List Char)) (path0 n : List Char),
      n ∈ findTokens path0 → lookup n = none →
      ∃ msg, resolvePath lookup path0 = .error msg ∧
        findMatches (substTokens lookup path0) ≠ [] ∧
        (∀ t ∈ findMatches (substTokens lookup path0), ∃ s u, msg = s ++ t ++ u)) ∧
    (∀ (creds : Credentials) (props : List NodeProp) (tok op : List Char)
       (params : List Char → Option JSValue) (msg : List Char)
       (r : Except (List Char) JSValue),
      resolvePath (fun name => (params name).map jsValueToString)
        (if ((splitOnChar ' ' op)[1]?.getD []).headD ' ' = '/'
         then (splitOnChar ' ' op)[1]?.getD []
         else '/' :: (splitOnChar ' ' op)[1]?.getD []) = .error msg →
      validMethods.contains ((splitOnChar ' ' op).headD []) = true →
      runItem creds props tok ⟨op, params, r⟩ = .error msg) := by
  refine ⟨?_, ?_, ?_⟩
  · intro lookup path0 hyp
    have hcomp := substTokens_complete lookup path0 hyp
    refine ⟨substTokens lookup path0, ?_, hcomp⟩
    simp only [resolvePath, findMatches, hcomp, List.map_nil, List.isEmpty_nil,
      if_true]
  · intro lookup path0 n hmem hnone
    obtain ⟨a, b, hab⟩ := substTokens_left_token lookup path0 n hmem hnone
    obtain ⟨hne, hmem2⟩ := findTokens_name_facts path0 n hmem
    have hfne : findTokens (substTokens lookup path0) ≠ [] :=
      token_sub_find_ne _ a n b hab hne hmem2
    have hmne : findMatches (substTokens lookup path0) ≠ [] := by
      simp only [findMatches, ne_eq, List.map_eq_nil_iff]
      exact hfne
    refine ⟨missingParamsPrefix ++
      List.intercalate ", ".data (findMatches (substTokens lookup path0)), ?_, hmne, ?_⟩
    · simp only [resolvePath]
      rw [if_neg (by simpa [List.isEmpty_iff] using hmne)]
    · intro t ht
      obtain ⟨s, u, hsu⟩ := mem_intercalate_infix ", ".data _ t ht
      refine ⟨missingParamsPrefix ++ s, u, ?_⟩
      rw [hsu]
      simp
  · intro creds props tok op params msg r hres hcontain
    simp only [runItem, buildRequest, hcontain, Bool.not_true, Bool.false_eq_true,
      if_false, hres]

theorem claim_C3_path_resolution_witness :
    (∀ n ∈ findTokens ("/Ticket/".data ++ lbrace :: ("id".data ++ [rbrace])),
      ((fun nm => if nm = "id".data then some "42".data else none) n).isSome) ∧
    (∃ path,
      resolvePath (fun nm => if nm = "id".data then some "42".data else none)
        ("/Ticket/".data ++ lbrace :: ("id".data ++ [rbrace])) = .ok path ∧
      findTokens path = []) ∧
    "id".data ∈ findTokens ("/Ticket/".data ++ lbrace :: ("id".data ++ [rbrace])) ∧
    (∃ msg,
      resolvePath (fun _ => none)
        ("/Ticket/".data ++ lbrace :: ("id".data ++ [rbrace])) = .error msg ∧
      findMatches (substTokens (fun _ => none)
        ("/Ticket/".data ++ lbrace :: ("id".data ++ [rbrace]))) ≠ [] ∧
      (∀ t ∈ findMatches (substTokens (fun _ => none)
          ("/Ticket/".data ++ lbrace :: ("id".data ++ [rbrace]))),
        ∃ s u, msg = s ++ t ++ u)) ∧
    resolvePath
      (fun name => (((fun _ : List Char => (none : Option JSValue)) name).map
        jsValueToString))
      (if ((splitOnChar ' ' ("GET /Ticket/".data ++
             lbrace :: ("id".data ++ [rbrace])))[1]?.getD []).headD ' ' = '/'
       then (splitOnChar ' ' ("GET /Ticket/".data ++
              lbrace :: ("id".data ++ [rbrace])))[1]?.getD []
       else '/' :: (splitOnChar ' ' ("GET /Ticket/".data ++
              lbrace :: ("id".data ++ [rbrace])))[1]?.getD []) =
      .error (missingParamsPrefix ++ lbrace :: ("id".data ++ [rbrace])) ∧
    validMethods.contains
      ((splitOnChar ' ' ("GET /Ticket/".data ++
         lbrace :: ("id".data ++ [rbrace]))).headD []) = true ∧
    runItem
      { glpiUrl := "https://g/".data, username := "u".data, password := "p".data,
        scope := [], clientId := [], clientSecret := [], ignoreSSLIssues := false }
      [] "tok".data
      { operation := "GET /Ticket/".data ++ lbrace :: ("id".data ++ [rbrace]),
        params := fun _ => none, response := .ok (.obj []) } =
      .error (missingParamsPrefix ++ lbrace :: ("id".data ++ [rbrace])) :=
  ⟨by decide,
   claim_C3_path_resolution.1 _ _ (by decide),
   by decide,
   claim_C3_path_resolution.2.1 _ _ "id".data (by decide) rfl,
   rfl,
   by decide,
   claim_C3_path_resolution.2.2 _ [] "tok".data _ (fun _ => none) _ (.ok (.obj []))
     rfl (by decide)⟩
